import Mathlib

/-!
Shallow embedding of the ref-farming reward-distribution engine
(src/ref-farming/src: farm.rs, farmer.rs, internals.rs, lib.rs, utils.rs)
together with theorems checking the natural-language specification
against it.

Modelling conventions:
* machine integers (u32 timestamps and rounds, u128 balances, the 256-bit
  reward-per-seed accumulator) are modelled as Nat; subtraction sites that
  the source guards keep the same guard here, and subtraction or assertion
  sites where the source aborts the transaction surface as Option.none,
  meaning the transaction aborts and the pre-state is kept;
* the uint crate traps on 256-bit overflow instead of wrapping, so on every
  run that completes, Nat arithmetic agrees with the source; multiplication
  and narrowing casts on the claim path, where a trap is semantically
  relevant, are guarded explicitly with the corresponding bound;
* account ids, seed ids and reward-token ids are abstracted to Nat, and a
  farm id (the string built by gen_farm_id as seed, separator, index) is
  modelled as the pair (seed, index), which parse_farm_id inverts;
* timestamps are nanoseconds, as delivered by env::block_timestamp, passed
  explicitly as a `now` argument.
-/

/-- Scaling constant DENOM = 10^24 from farm.rs. -/
def DENOM : Nat := 1000000000000000000000000

/-- Seconds to nanoseconds (utils.rs, to_nano). -/
def to_nano (t : Nat) : Nat := t * 1000000000

/-- Nanoseconds to seconds, truncating (utils.rs, to_sec). -/
def to_sec (t : Nat) : Nat := t / 1000000000

/-- Association-list lookup, modelling get on the persistent maps
(HashMap, LookupMap, UnorderedMap) of the source. -/
def lookupA {α β : Type} [DecidableEq α] : List (α × β) → α → Option β
  | [], _ => none
  | (k, v) :: rest, k' => if k = k' then some v else lookupA rest k'

/-- Association-list insert-or-replace, modelling insert on the maps. -/
def insertA {α β : Type} [DecidableEq α] : List (α × β) → α → β → List (α × β)
  | [], k, v => [(k, v)]
  | (k0, v0) :: rest, k, v =>
    if k0 = k then (k, v) :: rest else (k0, v0) :: insertA rest k v

/-- Association-list removal of a key, modelling remove on the maps. -/
def removeA {α β : Type} [DecidableEq α] : List (α × β) → α → List (α × β)
  | [], _ => []
  | (k0, v0) :: rest, k =>
    if k0 = k then removeA rest k else (k0, v0) :: removeA rest k

/-- Lookup with a default value (unwrap_or of the source). -/
def lookupD {α β : Type} [DecidableEq α] (l : List (α × β)) (k : α) (d : β) : β :=
  (lookupA l k).getD d

/-- Farm identifier: the source string "seed#index" is the pair. -/
abbrev FarmId : Type := Nat × Nat

/-- Farm lifecycle states (farm.rs, FarmStatus). -/
inductive FarmStatus : Type where
  | Created
  | Running
  | Ended
  | Cleared
deriving DecidableEq, Repr

/-- Farm terms (farm.rs, FarmTerms); start_at and session_interval are in
seconds. -/
structure FarmTerms : Type where
  seed_id : Nat
  reward_token : Nat
  start_at : Nat
  reward_per_session : Nat
  session_interval : Nat
deriving DecidableEq, Repr

/-- Reward distribution record (farm.rs, FarmRewardDistribution); rps is the
little-endian 256-bit accumulator read as a number. -/
structure FarmRewardDistribution : Type where
  undistributed : Nat
  unclaimed : Nat
  rps : Nat
  rr : Nat
deriving DecidableEq, Repr

/-- A farm (farm.rs, Farm). -/
structure Farm : Type where
  farm_id : FarmId
  terms : FarmTerms
  status : FarmStatus
  last_distribution : FarmRewardDistribution
  amount_of_reward : Nat
  amount_of_claimed : Nat
  amount_of_beneficiary : Nat
deriving DecidableEq, Repr

/-- Farm constructor (farm.rs, Farm::new). -/
def Farm.new (id : FarmId) (terms : FarmTerms) : Farm :=
  { farm_id := id
    amount_of_reward := 0
    amount_of_claimed := 0
    amount_of_beneficiary := 0
    status := FarmStatus.Created
    last_distribution := { undistributed := 0, unclaimed := 0, rps := 0, rr := 0 }
    terms := terms }

/-- Non-committing accrual (farm.rs, Farm::try_distribute). The two some
branches spell out the capped and the uncapped case of the single mutable
path of the source. The source subtraction dis.rr - last.rr on u32 and the
division by session_interval are total here (Nat truncation); theorems that
rely on them carry the hypotheses, satisfied in every reachable state under
a monotone clock, that rule the underflow and the zero divisor out. -/
def Farm.try_distribute (f : Farm) (total_seeds now : Nat) :
    Option FarmRewardDistribution :=
  if f.status = FarmStatus.Running then
    if now < to_nano f.terms.start_at then none
    else
      let d := f.last_distribution
      let rr1 := (to_sec now - f.terms.start_at) / f.terms.session_interval
      let reward0 := (rr1 - d.rr) * f.terms.reward_per_session
      if d.undistributed < reward0 then
        let reward_added := d.undistributed
        let increased_rr := reward_added / f.terms.reward_per_session
        let rr2 :=
          if increased_rr * f.terms.reward_per_session < reward_added then
            d.rr + increased_rr + 1
          else d.rr + increased_rr
        some { undistributed := d.undistributed - reward_added
               unclaimed := d.unclaimed + reward_added
               rps := if total_seeds = 0 then 0
                      else d.rps + reward_added * DENOM / total_seeds
               rr := rr2 }
      else
        some { undistributed := d.undistributed - reward0
               unclaimed := d.unclaimed + reward0
               rps := if total_seeds = 0 then 0
                      else d.rps + reward0 * DENOM / total_seeds
               rr := rr1 }
  else none

/-- The replacement step of Farm::distribute: store the new distribution
and, at zero stake, sweep the freshly released unclaimed reward to the
beneficiary counters. -/
def Farm.commit (f : Farm) (dis : FarmRewardDistribution) (total_seeds : Nat) :
    Farm :=
  let f2 : Farm := { f with last_distribution := dis }
  if total_seeds = 0 then
    { f2 with
      amount_of_claimed :=
        f2.amount_of_claimed + f2.last_distribution.unclaimed
      amount_of_beneficiary :=
        f2.amount_of_beneficiary + f2.last_distribution.unclaimed
      last_distribution := { f2.last_distribution with unclaimed := 0 } }
  else f2

/-- The final step of Farm::distribute: an exhausted farm goes to Ended. -/
def Farm.markEnded (f1 : Farm) : Farm :=
  if f1.last_distribution.undistributed = 0 then
    { f1 with status := FarmStatus.Ended }
  else f1

/-- Committing distribution (farm.rs, Farm::distribute); the silent flag of
the source only controls logging and is dropped. -/
def Farm.distribute (f : Farm) (total_seeds now : Nat) : Farm :=
  match f.try_distribute total_seeds now with
  | none => f
  | some dis =>
    Farm.markEnded
      (if f.last_distribution.rr = dis.rr then f else f.commit dis total_seeds)

/-- Reward top-up (farm.rs, Farm::add_reward); none is the rejection path.
The source probes try_distribute with DENOM as the stake argument. -/
def Farm.add_reward (f : Farm) (amount now : Nat) : Option (Nat × Farm) :=
  match f.status with
  | FarmStatus.Created =>
    let f1 : Farm :=
      { f with
        status := FarmStatus.Running
        terms := if f.terms.start_at = 0 then
                   { f.terms with start_at := to_sec now }
                 else f.terms
        amount_of_reward := f.amount_of_reward + amount
        last_distribution :=
          { f.last_distribution with
            undistributed := f.last_distribution.undistributed + amount } }
    some (f1.last_distribution.undistributed, f1)
  | FarmStatus.Running =>
    let accept : Option (Nat × Farm) :=
      let f1 : Farm :=
        { f with
          amount_of_reward := f.amount_of_reward + amount
          last_distribution :=
            { f.last_distribution with
              undistributed := f.last_distribution.undistributed + amount } }
      some (f1.last_distribution.undistributed, f1)
    match f.try_distribute DENOM now with
    | some dis => if dis.undistributed = 0 then none else accept
    | none => accept
  | _ => none

/-- Claim of a single user against a farm (farm.rs, Farm::claim_user_reward).
Returns the new user rps, the claimed amount and the updated farm; none is
a trap of the source: underflow of the 256-bit subtraction rps - user_rps,
overflow of the 256-bit product, overflow of the cast as_u128, or the ERR500
assertion claimed <= unclaimed. A trap aborts the transaction, so the caller
keeps its pre-state. -/
def Farm.claim_user_reward (f : Farm) (user_rps user_seeds total_seeds now : Nat) :
    Option (Nat × Nat × Farm) :=
  let f1 := f.distribute total_seeds now
  let rps1 := f1.last_distribution.rps
  if user_rps ≤ rps1 then
    if user_seeds * (rps1 - user_rps) < 2 ^ 256 then
      let claimed := user_seeds * (rps1 - user_rps) / DENOM
      if claimed < 2 ^ 128 then
        if 0 < claimed then
          if claimed ≤ f1.last_distribution.unclaimed then
            some (rps1, claimed,
              { f1 with
                last_distribution :=
                  { f1.last_distribution with
                    unclaimed := f1.last_distribution.unclaimed - claimed }
                amount_of_claimed := f1.amount_of_claimed + claimed })
          else none
        else some (rps1, 0, f1)
      else none
    else none
  else none

/-- Read-only unclaimed amount (farm.rs, Farm::view_farmer_unclaimed_reward);
none is a trap of the 256-bit subtraction or of the narrowing cast. -/
def Farm.view_farmer_unclaimed_reward
    (f : Farm) (user_rps user_seeds total_seeds now : Nat) : Option Nat :=
  if total_seeds = 0 then some 0
  else if user_seeds = 0 then some 0
  else
    let rps1 :=
      match f.try_distribute total_seeds now with
      | some dis => dis.rps
      | none => f.last_distribution.rps
    if user_rps ≤ rps1 then
      if user_seeds * (rps1 - user_rps) < 2 ^ 256 then
        if user_seeds * (rps1 - user_rps) / DENOM < 2 ^ 128 then
          some (user_seeds * (rps1 - user_rps) / DENOM)
        else none
      else none
    else none

/-- The sweep-and-clear step of Farm::move_to_clear on an Ended farm. -/
def Farm.clearEnded (f1 : Farm) : Farm :=
  let f2 :=
    if 0 < f1.last_distribution.unclaimed then
      { f1 with
        amount_of_claimed :=
          f1.amount_of_claimed + f1.last_distribution.unclaimed
        amount_of_beneficiary :=
          f1.amount_of_beneficiary + f1.last_distribution.unclaimed
        last_distribution :=
          { f1.last_distribution with unclaimed := 0 } }
    else f1
  { f2 with status := FarmStatus.Cleared }

/-- Sweep of an ended farm (farm.rs, Farm::move_to_clear). -/
def Farm.move_to_clear (f : Farm) (total_seeds now : Nat) : Bool × Farm :=
  let f1 :=
    if f.status = FarmStatus.Running then f.distribute total_seeds now else f
  if f1.status = FarmStatus.Ended then (true, f1.clearEnded) else (false, f1)

/-- Removability check (farm.rs, Farm::can_be_removed). -/
def Farm.can_be_removed (f : Farm) (total_seeds now : Nat) : Bool :=
  match f.status with
  | FarmStatus.Ended => true
  | FarmStatus.Running =>
    match f.try_distribute total_seeds now with
    | some dis => dis.undistributed = 0
    | none => false
  | _ => false

/-- A farmer record (farmer.rs, Farmer). The storage deposit, the rps_count
bookkeeping used only for storage pricing, and the NFT seed set are outside
the claims and are not modelled. -/
structure Farmer : Type where
  farmer_id : Nat
  rewards : List (Nat × Nat)
  seeds : List (Nat × Nat)
  user_rps : List (FarmId × Nat)
deriving DecidableEq, Repr

/-- Credit of a claimed reward balance (farmer.rs, Farmer::add_reward). -/
def Farmer.add_reward (fr : Farmer) (token amount : Nat) : Farmer :=
  match lookupA fr.rewards token with
  | some x => { fr with rewards := insertA fr.rewards token (x + amount) }
  | none => { fr with rewards := insertA fr.rewards token amount }

/-- Debit of a claimed reward balance (farmer.rs, Farmer::sub_reward);
amount 0 withdraws the whole balance and drops the entry; none is the panic
on an unregistered token or an amount above the balance. Returns the amount
actually debited and the updated farmer. -/
def Farmer.sub_reward (fr : Farmer) (token amount : Nat) : Option (Nat × Farmer) :=
  match lookupA fr.rewards token with
  | none => none
  | some value =>
    if value < amount then none
    else if amount = 0 then
      some (value, { fr with rewards := removeA fr.rewards token })
    else
      some (amount, { fr with rewards := insertA fr.rewards token (value - amount) })

/-- Stake credit (farmer.rs, Farmer::add_seed); a zero amount is a no-op. -/
def Farmer.add_seed (fr : Farmer) (seed_id amount : Nat) : Farmer :=
  if 0 < amount then
    { fr with seeds := insertA fr.seeds seed_id (amount + lookupD fr.seeds seed_id 0) }
  else fr

/-- Stake debit (farmer.rs, Farmer::sub_seed); none is the panic on a
missing seed entry or an amount above the balance. Returns the remaining
stake and the updated farmer. -/
def Farmer.sub_seed (fr : Farmer) (seed_id amount : Nat) : Option (Nat × Farmer) :=
  match lookupA fr.seeds seed_id with
  | none => none
  | some prev =>
    if prev < amount then none
    else
      let cur := prev - amount
      if 0 < cur then
        some (cur, { fr with seeds := insertA fr.seeds seed_id cur })
      else
        some (cur, { fr with seeds := removeA fr.seeds seed_id })

/-- Snapshot read with the all-zeroes default (farmer.rs, Farmer::get_rps). -/
def Farmer.get_rps (fr : Farmer) (fid : FarmId) : Nat :=
  lookupD fr.user_rps fid 0

/-- Snapshot write (farmer.rs, Farmer::set_rps). -/
def Farmer.set_rps (fr : Farmer) (fid : FarmId) (rps : Nat) : Farmer :=
  { fr with user_rps := insertA fr.user_rps fid rps }

/-- Snapshot removal (farmer.rs, Farmer::remove_rps). -/
def Farmer.remove_rps (fr : Farmer) (fid : FarmId) : Farmer :=
  { fr with user_rps := removeA fr.user_rps fid }

/-- Claimed balance of a token with default 0. -/
def rewardBal (fr : Farmer) (token : Nat) : Nat := lookupD fr.rewards token 0

/-- Modelled from the spec: the seed aggregate (SeedAggregate of section 3;
the file farm_seed.rs that defines FarmSeed is not under src). It carries
the seed identifier, the total staked amount, the set of farms paying
against the seed, and the creation index for gen_farm_id. -/
structure FarmSeed : Type where
  seed_id : Nat
  amount : Nat
  farms : List FarmId
  next_index : Nat
deriving DecidableEq, Repr

/-- Modelled from the spec: stake added to the seed aggregate total. -/
def FarmSeed.add_amount (fs : FarmSeed) (amount : Nat) : FarmSeed :=
  { fs with amount := fs.amount + amount }

/-- Modelled from the spec: stake removed from the seed aggregate total;
none is the abort when the total is exceeded. -/
def FarmSeed.sub_amount (fs : FarmSeed) (amount : Nat) : Option FarmSeed :=
  if fs.amount < amount then none
  else some { fs with amount := fs.amount - amount }

/-- Contract state (lib.rs, ContractData). Owner id, farmer count and the
NFT balance table are outside the claims and are not modelled. -/
structure Contract : Type where
  seeds : List (Nat × FarmSeed)
  farmers : List (Nat × Farmer)
  farms : List (FarmId × Farm)
  outdated_farms : List (FarmId × Farm)
deriving DecidableEq, Repr

/-- Settlement of one farmer against one farm (internals.rs,
claim_user_reward_from_farm): reads the user stake and snapshot, claims,
stores the new snapshot unconditionally and credits the reward balance only
when a nonzero amount was claimed. -/
def claim_user_reward_from_farm (farm : Farm) (farmer : Farmer)
    (total_seeds now : Nat) : Option (Farm × Farmer) :=
  let user_seeds := lookupD farmer.seeds farm.terms.seed_id 0
  let user_rps := farmer.get_rps farm.farm_id
  (farm.claim_user_reward user_rps user_seeds total_seeds now).map
    (fun r =>
      let farmer1 := farmer.set_rps farm.farm_id r.1
      let farmer2 :=
        if 0 < r.2.1 then farmer1.add_reward farm.terms.reward_token r.2.1
        else farmer1
      (r.2.2, farmer2))

/-- Loop body of internal_claim_user_reward_by_seed_id: settle the farmer
against every farm of the seed, threading the farms map and the farmer;
none is a panic (missing farm record or a claim trap). -/
def claimFarmsLoop (total now : Nat) :
    List FarmId → List (FarmId × Farm) → Farmer →
      Option (List (FarmId × Farm) × Farmer)
  | [], farms, farmer => some (farms, farmer)
  | fid :: rest, farms, farmer =>
    match lookupA farms fid with
    | none => none
    | some farm =>
      match claim_user_reward_from_farm farm farmer total now with
      | none => none
      | some (farm', farmer') =>
        claimFarmsLoop total now rest (insertA farms fid farm') farmer'

/-- Claim of every farm of a seed (internals.rs,
Contract::internal_claim_user_reward_by_seed_id); a missing farmer is a
panic, a missing seed is a silent no-op, exactly as in the source. -/
def internal_claim_user_reward_by_seed_id (c : Contract)
    (sender seed now : Nat) : Option Contract :=
  match lookupA c.farmers sender with
  | none => none
  | some farmer =>
    match lookupA c.seeds seed with
    | none => some c
    | some fs =>
      match claimFarmsLoop fs.amount now fs.farms c.farms farmer with
      | none => none
      | some (farms', farmer') =>
        some { c with
               farms := farms'
               seeds := insertA c.seeds seed fs
               farmers := insertA c.farmers sender farmer' }

/-- Claim of a single farm (internals.rs,
Contract::internal_claim_user_reward_by_farm_id); parse_farm_id recovers the
seed as the first component of the pair. -/
def internal_claim_user_reward_by_farm_id (c : Contract)
    (sender : Nat) (fid : FarmId) (now : Nat) : Option Contract :=
  match lookupA c.farmers sender with
  | none => none
  | some farmer =>
    match lookupA c.seeds fid.1 with
    | none => some c
    | some fs =>
      match lookupA c.farms fid with
      | none => some c
      | some farm =>
        match claim_user_reward_from_farm farm farmer fs.amount now with
        | none => none
        | some (farm', farmer') =>
          some { c with
                 farms := insertA c.farms fid farm'
                 farmers := insertA c.farmers sender farmer' }

/-- Optimistic reward withdrawal (lib.rs,
Contract::internal_execute_withdraw_reward): an omitted amount defaults
to 0, the balance is debited locally and the external transfer with its
compensating callback is out of scope. -/
def internal_execute_withdraw_reward (c : Contract)
    (token sender : Nat) (amount : Option Nat) : Option Contract :=
  match lookupA c.farmers sender with
  | none => none
  | some farmer =>
    match farmer.sub_reward token (amount.getD 0) with
    | none => none
    | some r => some { c with farmers := insertA c.farmers sender r.2 }

/-- Loop shared by the stake-mutation paths of internals.rs: for every farm
of the seed, deduplicating reward tokens, auto-withdraw the claimed balance
of the sender when one is recorded. The membership check uses the farmer
value read before the loop, as the source does. -/
def autoWithdrawLoop (c : Contract) (frSnap : Farmer) (sender : Nat)
    (seen : List Nat) : List FarmId → Option Contract
  | [] => some c
  | fid :: rest =>
    match lookupA c.farms fid with
    | none => none
    | some farm =>
      let token := farm.terms.reward_token
      if token ∈ seen then autoWithdrawLoop c frSnap sender seen rest
      else
        if (lookupA frSnap.rewards token).isSome then
          match internal_execute_withdraw_reward c token sender none with
          | none => none
          | some c' => autoWithdrawLoop c' frSnap sender (token :: seen) rest
        else autoWithdrawLoop c frSnap sender (token :: seen) rest

/-- Stake deposit (internals.rs, Contract::internal_seed_deposit): settle
every farm of the seed first, then add the amount to the seed total and to
the farmer stake, then auto-withdraw recorded reward balances. -/
def internal_seed_deposit (c : Contract) (seed sender amount now : Nat) :
    Option Contract :=
  match internal_claim_user_reward_by_seed_id c sender seed now with
  | none => none
  | some c1 =>
    match lookupA c1.seeds seed with
    | none => none
    | some fs =>
      match lookupA c1.farmers sender with
      | none => none
      | some farmer =>
        let fs' := fs.add_amount amount
        let c2 := { c1 with seeds := insertA c1.seeds seed fs' }
        let farmer' := farmer.add_seed seed amount
        let c3 := { c2 with farmers := insertA c2.farmers sender farmer' }
        autoWithdrawLoop c3 farmer' sender [] fs'.farms

/-- Fold of remove_rps over a list of farm ids (the removal loop of
internal_seed_withdraw). -/
def removeRpsList (fr : Farmer) : List FarmId → Farmer
  | [] => fr
  | fid :: rest => removeRpsList (fr.remove_rps fid) rest

/-- Stake withdrawal (internals.rs, Contract::internal_seed_withdraw):
settle every farm of the seed first, then debit the farmer stake and the
seed total, drop every snapshot of the seed when the remaining stake is
zero, then auto-withdraw recorded reward balances. -/
def internal_seed_withdraw (c : Contract) (seed sender amount now : Nat) :
    Option Contract :=
  match internal_claim_user_reward_by_seed_id c sender seed now with
  | none => none
  | some c1 =>
    match lookupA c1.seeds seed with
    | none => none
    | some fs =>
      match lookupA c1.farmers sender with
      | none => none
      | some farmer =>
        match farmer.sub_seed seed amount with
        | none => none
        | some r =>
          match fs.sub_amount amount with
          | none => none
          | some fs1 =>
            let farmer2 :=
              if r.1 = 0 then removeRpsList r.2 fs1.farms else r.2
            let c2 := { c1 with
                        farmers := insertA c1.farmers sender farmer2
                        seeds := insertA c1.seeds seed fs1 }
            autoWithdrawLoop c2 farmer2 sender [] fs1.farms

/-- Farm creation (internals.rs, Contract::internal_add_farm); storage-fee
accounting is out of scope. -/
def internal_add_farm (c : Contract) (seed : Nat) (t : FarmTerms) : Contract :=
  let fs := (lookupA c.seeds seed).getD
    { seed_id := seed, amount := 0, farms := [], next_index := 0 }
  let fid : FarmId := (seed, fs.next_index)
  let farm := Farm.new fid t
  { c with
    seeds := insertA c.seeds seed
      { fs with farms := fs.farms ++ [fid], next_index := fs.next_index + 1 }
    farms := insertA c.farms fid farm }

/-- Modelled from the spec: farmer registration (storage_impl.rs is not
under src); registration creates an empty farmer record. -/
def registerFarmer (c : Contract) (sender : Nat) : Contract :=
  match lookupA c.farmers sender with
  | some _ => c
  | none =>
    let fr : Farmer :=
      { farmer_id := sender, rewards := [], seeds := [], user_rps := [] }
    { c with farmers := insertA c.farmers sender fr }

/-- Modelled from the spec: the reward-deposit entry point (deposit_reward
of section 6; token_receiver.rs, which routes an incoming token transfer to
Farm::add_reward of the farm named in the message, is not under src). -/
def deposit_reward (c : Contract) (fid : FarmId) (amount now : Nat) :
    Option Contract :=
  match lookupA c.farms fid with
  | none => none
  | some farm =>
    match farm.add_reward amount now with
    | none => none
    | some r => some { c with farms := insertA c.farms fid r.2 }

/-- Spec section 4.1 step 2: the target round reached at the current time. -/
def spec_target_round (f : Farm) (now : Nat) : Nat :=
  (to_sec now - f.terms.start_at) / f.terms.session_interval

/-- Spec section 4.1 step 3: the reward the elapsed rounds want to release. -/
def spec_reward_wanted (f : Farm) (now : Nat) : Nat :=
  (spec_target_round f now - f.last_distribution.rr) * f.terms.reward_per_session

/-- Spec section 4.1 step 4: the released reward, capped at undistributed. -/
def spec_released (f : Farm) (now : Nat) : Nat :=
  if f.last_distribution.undistributed < spec_reward_wanted f now then
    f.last_distribution.undistributed
  else spec_reward_wanted f now

/-- Spec section 4.1 step 4: the round recorded by the accrual, with the
tail round marking exhaustion when a partial final session was paid. -/
def spec_new_round (f : Farm) (now : Nat) : Nat :=
  if f.last_distribution.undistributed < spec_reward_wanted f now then
    let whole := f.last_distribution.undistributed / f.terms.reward_per_session
    if whole * f.terms.reward_per_session < f.last_distribution.undistributed then
      f.last_distribution.rr + whole + 1
    else f.last_distribution.rr + whole
  else spec_target_round f now

/-- The per-farm conservation equation of spec sections 3 and 8: deposited
reward splits exactly into undistributed, unclaimed and claimed. -/
def FarmConservation (f : Farm) : Prop :=
  f.amount_of_reward =
    f.last_distribution.undistributed + f.last_distribution.unclaimed +
      f.amount_of_claimed

instance (f : Farm) : Decidable (FarmConservation f) := by
  unfold FarmConservation; infer_instance

/-- The four operations of farm.rs that can change a stored distribution,
with a trap or a rejection leaving the farm unchanged (an abort reverts the
whole transaction). -/
inductive FarmOp : Type where
  | addReward (amount now : Nat)
  | distribute (total now : Nat)
  | claim (user_rps user_seeds total now : Nat)
  | moveToClear (total now : Nat)

/-- Transaction semantics of one farm operation. -/
def applyFarmOp (f : Farm) : FarmOp → Farm
  | FarmOp.addReward a now =>
    match f.add_reward a now with
    | some r => r.2
    | none => f
  | FarmOp.distribute total now => f.distribute total now
  | FarmOp.claim urps useeds total now =>
    match f.claim_user_reward urps useeds total now with
    | some r => r.2.2
    | none => f
  | FarmOp.moveToClear total now => (f.move_to_clear total now).2

/-- Every distribution returned by try_distribute moves some amount r, at
most the undistributed pool, from undistributed to unclaimed, keeps the
round, and either resets rps (zero stake) or advances it by the share of r. -/
theorem try_distribute_delta (f : Farm) (total now : Nat)
    (dis : FarmRewardDistribution) (h : f.try_distribute total now = some dis) :
    ∃ r, r ≤ f.last_distribution.undistributed ∧
      dis.undistributed = f.last_distribution.undistributed - r ∧
      dis.unclaimed = f.last_distribution.unclaimed + r ∧
      dis.rps = (if total = 0 then 0
                 else f.last_distribution.rps + r * DENOM / total) := by
  unfold Farm.try_distribute at h
  split at h
  · split at h
    · exact absurd h (by simp)
    · dsimp only at h
      split at h
      · injection h with h
        subst h
        exact ⟨f.last_distribution.undistributed, le_refl _, rfl, rfl, rfl⟩
      · rename_i hc
        injection h with h
        subst h
        exact ⟨_, Nat.le_of_not_lt hc, rfl, rfl, rfl⟩
  · exact absurd h (by simp)

/-- In a Running farm whose start time has passed, try_distribute always
returns a distribution. -/
theorem try_distribute_isSome (f : Farm) (total now : Nat)
    (hs : f.status = FarmStatus.Running) (ht : to_nano f.terms.start_at ≤ now) :
    (f.try_distribute total now).isSome := by
  unfold Farm.try_distribute
  rw [if_pos hs]
  rw [if_neg (Nat.not_lt.mpr ht)]
  dsimp only
  split <;> rfl

/-- The commit step never changes amount_of_reward and conserves the sum of
undistributed, unclaimed and claimed. -/
theorem commit_conserves (f : Farm) (dis : FarmRewardDistribution)
    (total : Nat) :
    (f.commit dis total).amount_of_reward = f.amount_of_reward ∧
    ((f.commit dis total).last_distribution.undistributed +
       (f.commit dis total).last_distribution.unclaimed +
       (f.commit dis total).amount_of_claimed =
     dis.undistributed + dis.unclaimed + f.amount_of_claimed) := by
  unfold Farm.commit
  dsimp only
  split <;> refine ⟨rfl, ?_⟩ <;> dsimp only <;> omega

/-- markEnded only touches the status field. -/
theorem markEnded_fields (f1 : Farm) :
    (Farm.markEnded f1).last_distribution = f1.last_distribution ∧
    (Farm.markEnded f1).amount_of_reward = f1.amount_of_reward ∧
    (Farm.markEnded f1).amount_of_claimed = f1.amount_of_claimed ∧
    (Farm.markEnded f1).terms = f1.terms := by
  unfold Farm.markEnded
  split <;> exact ⟨rfl, rfl, rfl, rfl⟩

/-- The committing distribute conserves the sum of undistributed, unclaimed
and claimed, and never changes amount_of_reward. -/
theorem distribute_conserves (f : Farm) (total now : Nat) :
    (f.distribute total now).amount_of_reward = f.amount_of_reward ∧
    ((f.distribute total now).last_distribution.undistributed +
       (f.distribute total now).last_distribution.unclaimed +
       (f.distribute total now).amount_of_claimed =
     f.last_distribution.undistributed + f.last_distribution.unclaimed +
       f.amount_of_claimed) := by
  unfold Farm.distribute
  cases h : f.try_distribute total now with
  | none => exact ⟨rfl, rfl⟩
  | some dis =>
    obtain ⟨r, hr, hu, hc, _⟩ := try_distribute_delta f total now dis h
    obtain ⟨m1, m2, m3, _⟩ := markEnded_fields
      (if f.last_distribution.rr = dis.rr then f else f.commit dis total)
    rw [m1, m2, m3]
    split
    · exact ⟨rfl, rfl⟩
    · obtain ⟨c1, c2⟩ := commit_conserves f dis total
      rw [c1, c2]
      exact ⟨rfl, by omega⟩

/-- The zero-stake sweep of distribute keeps the stored rps. -/
theorem commit_rps (f : Farm) (dis : FarmRewardDistribution) (total : Nat) :
    (f.commit dis total).last_distribution.rps = dis.rps := by
  unfold Farm.commit
  dsimp only
  split <;> rfl

/-- clearEnded keeps the stored rps. -/
theorem clearEnded_rps (f1 : Farm) :
    (Farm.clearEnded f1).last_distribution.rps = f1.last_distribution.rps := by
  unfold Farm.clearEnded
  dsimp only
  split <;> rfl

/-- clearEnded keeps amount_of_reward and the conservation sum. -/
theorem clearEnded_conserves (f1 : Farm) :
    (Farm.clearEnded f1).amount_of_reward = f1.amount_of_reward ∧
    ((Farm.clearEnded f1).last_distribution.undistributed +
       (Farm.clearEnded f1).last_distribution.unclaimed +
       (Farm.clearEnded f1).amount_of_claimed =
     f1.last_distribution.undistributed + f1.last_distribution.unclaimed +
       f1.amount_of_claimed) := by
  unfold Farm.clearEnded
  dsimp only
  split <;> refine ⟨rfl, ?_⟩ <;> dsimp only <;> omega

/-- With a nonzero stake, a committing distribute never lowers rps. -/
theorem distribute_rps_ge (f : Farm) (total now : Nat) (h : total ≠ 0) :
    f.last_distribution.rps ≤ (f.distribute total now).last_distribution.rps := by
  unfold Farm.distribute
  cases htry : f.try_distribute total now with
  | none => exact le_refl _
  | some dis =>
    obtain ⟨r, _, _, _, hrps⟩ := try_distribute_delta f total now dis htry
    obtain ⟨m1, _, _, _⟩ := markEnded_fields
      (if f.last_distribution.rr = dis.rr then f else f.commit dis total)
    rw [m1]
    split
    · exact le_refl _
    · rw [commit_rps, hrps, if_neg h]
      exact Nat.le_add_right _ _

/-- Concrete farm used by the counterexamples and witnesses: Running, one
round behind, a positive stored accumulator and one session of reward left. -/
def exFarm : Farm :=
  { farm_id := (1, 0)
    terms := { seed_id := 1, reward_token := 2, start_at := 100,
               reward_per_session := 5000, session_interval := 50 }
    status := FarmStatus.Running
    last_distribution := { undistributed := 5000, unclaimed := 0, rps := 7, rr := 1 }
    amount_of_reward := 5000
    amount_of_claimed := 0
    amount_of_beneficiary := 0 }

/-- C1, counterexample: a distribution committed with total stake zero
resets the stored rps accumulator of exFarm from 7 to 0, a strict decrease,
refuting monotonicity for the zero-stake case the claim includes. -/
theorem rps_decreases_at_zero_stake :
    (exFarm.distribute 0 (to_nano 210)).last_distribution.rps <
      exFarm.last_distribution.rps := by decide

/-- C1, amended: over every operation that can change a stored distribution
(add_reward, distribute, claim_user_reward, move_to_clear), the stored rps
accumulator never decreases as long as the total stake passed to the
operation is nonzero; a commit with total stake zero instead resets rps
to 0 (farm.rs lines 216 to 226). -/
theorem rps_monotone_with_nonzero_stake
    (f : Farm) (total now amount urps useeds : Nat) (h : total ≠ 0) :
    f.last_distribution.rps ≤ (f.distribute total now).last_distribution.rps
    ∧ (∀ r, f.add_reward amount now = some r →
        f.last_distribution.rps = r.2.last_distribution.rps)
    ∧ (∀ r, f.claim_user_reward urps useeds total now = some r →
        f.last_distribution.rps ≤ r.2.2.last_distribution.rps)
    ∧ f.last_distribution.rps ≤
        (f.move_to_clear total now).2.last_distribution.rps := by
  refine ⟨distribute_rps_ge f total now h, ?_, ?_, ?_⟩
  · intro r hr
    unfold Farm.add_reward at hr
    cases hs : f.status <;> rw [hs] at hr <;> dsimp only at hr
    · injection hr with hr; rw [← hr]
    · cases htry : f.try_distribute DENOM now <;> rw [htry] at hr <;>
        dsimp only at hr
      · injection hr with hr; rw [← hr]
      · split at hr
        · exact absurd hr (by simp)
        · injection hr with hr; rw [← hr]
    · exact absurd hr (by simp)
    · exact absurd hr (by simp)
  · intro r hr
    unfold Farm.claim_user_reward at hr
    dsimp only at hr
    have hd := distribute_rps_ge f total now h
    split at hr
    · split at hr
      · split at hr
        · split at hr
          · split at hr
            · injection hr with hr; rw [← hr]; exact hd
            · exact absurd hr (by simp)
          · injection hr with hr; rw [← hr]; exact hd
        · exact absurd hr (by simp)
      · exact absurd hr (by simp)
    · exact absurd hr (by simp)
  · unfold Farm.move_to_clear
    dsimp only
    split
    · split
      · rw [clearEnded_rps]; exact distribute_rps_ge f total now h
      · exact distribute_rps_ge f total now h
    · split
      · rw [clearEnded_rps]
      · exact le_refl _

/-- C1, witness: the amended monotonicity at the concrete farm. -/
theorem rps_monotone_with_nonzero_stake_witness :
    exFarm.last_distribution.rps ≤
      (exFarm.distribute 10 (to_nano 210)).last_distribution.rps :=
  (rps_monotone_with_nonzero_stake exFarm 10 (to_nano 210) 0 0 0 (by decide)).1

/-- C2, counterexample: at zero total stake the distribution returned by
try_distribute does not carry the stored rps of exFarm (7); it is reset. -/
theorem zero_stake_rps_not_kept :
    ((exFarm.try_distribute 0 (to_nano 210)).map fun d => d.rps) ≠
      some exFarm.last_distribution.rps := by decide

/-- C2, amended: for every Running farm whose start time has passed, the
accrual at zero total stake returns a distribution whose rps is reset to
zero (farm.rs line 218), not the stored rps, while the released reward is
held in the returned unclaimed field (the unclaimed plus undistributed sum
is preserved and unclaimed does not shrink). -/
theorem zero_stake_distribution_resets_rps (f : Farm) (now : Nat)
    (hs : f.status = FarmStatus.Running)
    (ht : to_nano f.terms.start_at ≤ now) :
    ((f.try_distribute 0 now).map fun d => d.rps) = some 0
    ∧ ∀ d, f.try_distribute 0 now = some d →
        f.last_distribution.unclaimed ≤ d.unclaimed
        ∧ d.unclaimed + d.undistributed =
            f.last_distribution.unclaimed + f.last_distribution.undistributed := by
  have hsome := try_distribute_isSome f 0 now hs ht
  cases htry : f.try_distribute 0 now with
  | none => rw [htry] at hsome; exact absurd hsome (by simp)
  | some d =>
    obtain ⟨r, hr, hu, hc, hrps⟩ := try_distribute_delta f 0 now d htry
    refine ⟨by simp [hrps], ?_⟩
    intro d' hd'
    injection hd' with hd'
    subst hd'
    exact ⟨by omega, by omega⟩

/-- C2, witness: the reset at the concrete farm. -/
theorem zero_stake_distribution_resets_rps_witness :
    ((exFarm.try_distribute 0 (to_nano 210)).map fun d => d.rps) = some 0 :=
  (zero_stake_distribution_resets_rps exFarm (to_nano 210) rfl (by decide)).1

/-- The committing distribute preserves the conservation equation. -/
theorem distribute_preserves_conservation (f : Farm) (total now : Nat)
    (hf : FarmConservation f) :
    FarmConservation (f.distribute total now) := by
  obtain ⟨h1, h2⟩ := distribute_conserves f total now
  unfold FarmConservation at hf ⊢
  omega

/-- C3: the equation amount_of_reward = undistributed + unclaimed +
amount_of_claimed is preserved by every farm operation (add_reward,
distribute, claim_user_reward, move_to_clear) with any arguments, and hence
by every sequence of such operations; an aborted or rejected operation
leaves the farm unchanged. -/
theorem reward_conservation_preserved :
    (∀ (f : Farm) (op : FarmOp),
        FarmConservation f → FarmConservation (applyFarmOp f op))
    ∧ ∀ (ops : List FarmOp) (f : Farm),
        FarmConservation f → FarmConservation (ops.foldl applyFarmOp f) := by
  have step : ∀ (f : Farm) (op : FarmOp),
      FarmConservation f → FarmConservation (applyFarmOp f op) := by
    intro f op hf
    cases op with
    | addReward a now =>
      dsimp only [applyFarmOp]
      cases h : f.add_reward a now with
      | none => exact hf
      | some r =>
        unfold Farm.add_reward at h
        unfold FarmConservation at hf ⊢
        cases hs : f.status <;> rw [hs] at h <;> dsimp only at h
        · injection h with h
          rw [← h]
          dsimp only
          omega
        · cases htry : f.try_distribute DENOM now <;> rw [htry] at h <;>
            dsimp only at h
          · injection h with h
            rw [← h]
            dsimp only
            omega
          · split at h
            · exact absurd h (by simp)
            · injection h with h
              rw [← h]
              dsimp only
              omega
        · exact absurd h (by simp)
        · exact absurd h (by simp)
    | distribute total now =>
      exact distribute_preserves_conservation f total now hf
    | claim urps useeds total now =>
      dsimp only [applyFarmOp]
      cases h : f.claim_user_reward urps useeds total now with
      | none => exact hf
      | some r =>
        have hd := distribute_preserves_conservation f total now hf
        have hd1 := (distribute_conserves f total now).1
        unfold Farm.claim_user_reward at h
        dsimp only at h
        unfold FarmConservation at hd ⊢
        split at h
        · split at h
          · split at h
            · split at h
              · split at h
                · rename_i hle
                  injection h with h
                  rw [← h]
                  dsimp only
                  omega
                · exact absurd h (by simp)
              · injection h with h
                rw [← h]
                exact hd
            · exact absurd h (by simp)
          · exact absurd h (by simp)
        · exact absurd h (by simp)
    | moveToClear total now =>
      dsimp only [applyFarmOp]
      unfold Farm.move_to_clear
      dsimp only
      have hd := distribute_preserves_conservation f total now hf
      have hgc : FarmConservation
          (if f.status = FarmStatus.Running then f.distribute total now else f) := by
        split
        · exact hd
        · exact hf
      generalize (if f.status = FarmStatus.Running then f.distribute total now else f) = g
        at hgc ⊢
      obtain ⟨e1, e2⟩ := clearEnded_conserves g
      unfold FarmConservation at hgc ⊢
      split <;> dsimp only <;> omega
  refine ⟨step, ?_⟩
  intro ops
  induction ops with
  | nil => intro f hf; exact hf
  | cons op rest ih =>
    intro f hf
    exact ih (applyFarmOp f op) (step f op hf)

/-- C3, witness: the conservation equation holds for the concrete farm and
is preserved by a concrete committing distribution. -/
theorem reward_conservation_preserved_witness :
    FarmConservation exFarm ∧
      FarmConservation (applyFarmOp exFarm (FarmOp.distribute 0 (to_nano 210))) :=
  ⟨by decide, reward_conservation_preserved.1 exFarm
      (FarmOp.distribute 0 (to_nano 210)) (by decide)⟩

/-- C4: for a Running farm whose start time has passed, try_distribute
returns the distribution described by the spec: round = spec_new_round
(the floor target round, or the capped round with the tail increment) and
released reward = spec_released (the wanted reward capped at undistributed),
held as the growth of unclaimed and the decrease of undistributed; a farm
that is not Running, or whose start time is in the future, yields none.
The two side conditions record where the model is total while the source
would trap: a positive session_interval (the spec invariant of section 3)
and a stored round not beyond the target round (the monotone clock of
section 6). -/
theorem try_distribute_round_and_reward_correct (f : Farm) (total now : Nat)
    (_hint : 0 < f.terms.session_interval)
    (_hround : f.last_distribution.rr ≤ spec_target_round f now) :
    (f.status = FarmStatus.Running ∧ to_nano f.terms.start_at ≤ now →
      (f.try_distribute total now).map
          (fun d => (d.rr, d.unclaimed, d.undistributed)) =
        some (spec_new_round f now,
              f.last_distribution.unclaimed + spec_released f now,
              f.last_distribution.undistributed - spec_released f now))
    ∧ ((f.status ≠ FarmStatus.Running ∨ now < to_nano f.terms.start_at) →
      f.try_distribute total now = none) := by
  constructor
  · rintro ⟨hs, ht⟩
    unfold Farm.try_distribute
    rw [if_pos hs, if_neg (Nat.not_lt.mpr ht)]
    dsimp only
    unfold spec_new_round spec_released spec_reward_wanted spec_target_round
    split <;> rfl
  · intro h
    rcases h with h | h
    · simp [Farm.try_distribute, h]
    · simp [Farm.try_distribute, h]

/-- C4, witness: the uncapped accrual of the concrete Running farm one
session later releases exactly one session of reward and reaches round 2. -/
theorem try_distribute_round_and_reward_correct_witness :
    (exFarm.try_distribute 10 (to_nano 210)).map
        (fun d => (d.rr, d.unclaimed, d.undistributed)) = some (2, 5000, 0) := by
  have h := (try_distribute_round_and_reward_correct exFarm 10 (to_nano 210)
    (by decide) (by decide)).1 ⟨rfl, by decide⟩
  exact h.trans (by decide)

theorem lookupA_insertA_self {α β : Type} [DecidableEq α]
    (l : List (α × β)) (k : α) (v : β) : lookupA (insertA l k v) k = some v := by
  induction l with
  | nil => simp [insertA, lookupA]
  | cons p rest ih =>
    obtain ⟨k0, v0⟩ := p
    unfold insertA
    split
    · simp [lookupA]
    · rename_i hne
      unfold lookupA
      rw [if_neg hne]
      exact ih

theorem lookupA_insertA_ne {α β : Type} [DecidableEq α]
    (l : List (α × β)) (k : α) (v : β) (k' : α) (h : k ≠ k') :
    lookupA (insertA l k v) k' = lookupA l k' := by
  induction l with
  | nil => simp [insertA, lookupA, h]
  | cons p rest ih =>
    obtain ⟨k0, v0⟩ := p
    unfold insertA
    split
    · rename_i he
      unfold lookupA
      rw [if_neg h, he, if_neg h]
    · unfold lookupA
      split
      · rfl
      · exact ih

theorem lookupA_removeA_self {α β : Type} [DecidableEq α]
    (l : List (α × β)) (k : α) : lookupA (removeA l k) k = none := by
  induction l with
  | nil => rfl
  | cons p rest ih =>
    obtain ⟨k0, v0⟩ := p
    unfold removeA
    split
    · exact ih
    · rename_i hne
      unfold lookupA
      rw [if_neg hne]
      exact ih

theorem lookupA_removeA_ne {α β : Type} [DecidableEq α]
    (l : List (α × β)) (k k' : α) (h : k ≠ k') :
    lookupA (removeA l k) k' = lookupA l k' := by
  induction l with
  | nil => rfl
  | cons p rest ih =>
    obtain ⟨k0, v0⟩ := p
    simp only [removeA, lookupA]
    split_ifs with h1 h2 h2
    · exact absurd (h1 ▸ h2) h
    · exact ih
    · simp only [lookupA]
      rw [if_pos h2]
    · simp only [lookupA]
      rw [if_neg h2]
      exact ih

theorem lookupA_removeA_of_none {α β : Type} [DecidableEq α]
    (l : List (α × β)) (k k' : α) (h : lookupA l k' = none) :
    lookupA (removeA l k) k' = none := by
  by_cases he : k = k'
  · rw [he, lookupA_removeA_self]
  · rw [lookupA_removeA_ne l k k' he]
    exact h

/-- set_rps does not touch the reward balances. -/
theorem rewardBal_set_rps (fr : Farmer) (fid : FarmId) (x t : Nat) :
    rewardBal (fr.set_rps fid x) t = rewardBal fr t := rfl

/-- add_reward adds exactly the amount to the balance of the token. -/
theorem rewardBal_add_reward (fr : Farmer) (t a : Nat) :
    rewardBal (fr.add_reward t a) t = rewardBal fr t + a := by
  unfold Farmer.add_reward rewardBal lookupD
  cases h : lookupA fr.rewards t with
  | none => dsimp only; rw [lookupA_insertA_self]; simp
  | some x => dsimp only; rw [lookupA_insertA_self]; simp

/-- add_reward does not touch the snapshots. -/
theorem get_rps_add_reward (fr : Farmer) (t a : Nat) (fid : FarmId) :
    (fr.add_reward t a).get_rps fid = fr.get_rps fid := by
  unfold Farmer.add_reward Farmer.get_rps lookupD
  cases h : lookupA fr.rewards t <;> rfl

/-- user_rps of add_reward is unchanged. -/
theorem user_rps_add_reward (fr : Farmer) (t a : Nat) :
    (fr.add_reward t a).user_rps = fr.user_rps := by
  unfold Farmer.add_reward
  cases h : lookupA fr.rewards t <;> rfl

/-- seeds of add_reward is unchanged. -/
theorem seeds_add_reward (fr : Farmer) (t a : Nat) :
    (fr.add_reward t a).seeds = fr.seeds := by
  unfold Farmer.add_reward
  cases h : lookupA fr.rewards t <;> rfl

/-- Reading back the snapshot just written. -/
theorem get_rps_set_rps_self (fr : Farmer) (fid : FarmId) (x : Nat) :
    (fr.set_rps fid x).get_rps fid = x := by
  unfold Farmer.set_rps Farmer.get_rps lookupD
  dsimp only
  rw [lookupA_insertA_self]
  rfl

/-- Writing one snapshot leaves the others unchanged. -/
theorem get_rps_set_rps_ne (fr : Farmer) (fid fid' : FarmId) (x : Nat)
    (h : fid ≠ fid') : (fr.set_rps fid x).get_rps fid' = fr.get_rps fid' := by
  unfold Farmer.set_rps Farmer.get_rps lookupD
  dsimp only
  rw [lookupA_insertA_ne _ _ _ _ h]

/-- C10: sub_reward with amount 0 removes the entry and returns the whole
recorded balance (withdraw 0 means withdraw all); a positive amount within
the balance debits exactly that amount; a missing token entry, or an amount
above the balance, is a panic (none, no state change); and the contract
withdraw path treats an omitted amount exactly as amount 0. -/
theorem sub_reward_semantics :
    (∀ (fr : Farmer) (token amount : Nat),
       lookupA fr.rewards token = none → fr.sub_reward token amount = none)
    ∧ (∀ (fr : Farmer) (token value : Nat),
       lookupA fr.rewards token = some value →
         (fr.sub_reward token 0 =
            some (value, { fr with rewards := removeA fr.rewards token }))
         ∧ (∀ amount, 0 < amount → amount ≤ value →
              fr.sub_reward token amount =
                some (amount,
                  { fr with rewards := insertA fr.rewards token (value - amount) }))
         ∧ (∀ amount, value < amount → fr.sub_reward token amount = none))
    ∧ ∀ (c : Contract) (token sender : Nat),
        internal_execute_withdraw_reward c token sender none =
          internal_execute_withdraw_reward c token sender (some 0) := by
  refine ⟨?_, ?_, ?_⟩
  · intro fr token amount h
    unfold Farmer.sub_reward
    rw [h]
  · intro fr token value h
    unfold Farmer.sub_reward
    rw [h]
    dsimp only
    refine ⟨?_, ?_, ?_⟩
    · rw [if_neg (Nat.not_lt_zero value), if_pos rfl]
    · intro amount h1 h2
      rw [if_neg (Nat.not_lt.mpr h2), if_neg (Nat.pos_iff_ne_zero.mp h1)]
    · intro amount hlt
      rw [if_pos hlt]
  · intro c token sender
    rfl

/-- Concrete farmer used by witnesses: one recorded reward balance, one
staked seed, one snapshot. -/
def exFarmer : Farmer :=
  { farmer_id := 10
    rewards := [(2, 10000)]
    seeds := [(1, 10)]
    user_rps := [((1, 0), 0)] }

/-- C10, witness: withdrawing 0 of the recorded token returns the full
10000 and removes the entry. -/
theorem sub_reward_semantics_witness :
    exFarmer.sub_reward 2 0 =
      some (10000, { exFarmer with rewards := removeA exFarmer.rewards 2 }) :=
  (sub_reward_semantics.2.1 exFarmer 2 10000 (by decide)).1

/-- C8: add_reward accepts exactly in Created, and in Running when the
non-committing accrual probe does not show undistributed exhausted; the
accepted deposit raises undistributed and the lifetime amount_of_reward by
the amount, returns the new undistributed total, turns a Created farm
Running and sets a zero start_at to the deposit time; Ended and Cleared
farms, and a Running farm whose probe shows zero undistributed left,
reject with none and no state change. -/
theorem add_reward_acceptance_correct (f : Farm) (amount now : Nat) :
    (f.status = FarmStatus.Created →
       (f.add_reward amount now).map (fun r => r.1) =
           some (f.last_distribution.undistributed + amount)
       ∧ (f.add_reward amount now).map (fun r => r.2.status) =
           some FarmStatus.Running
       ∧ (f.add_reward amount now).map (fun r => r.2.amount_of_reward) =
           some (f.amount_of_reward + amount)
       ∧ (f.add_reward amount now).map
             (fun r => r.2.last_distribution.undistributed) =
           some (f.last_distribution.undistributed + amount)
       ∧ (f.add_reward amount now).map (fun r => r.2.terms.start_at) =
           some (if f.terms.start_at = 0 then to_sec now else f.terms.start_at))
    ∧ (f.status = FarmStatus.Running →
       (((f.try_distribute DENOM now).map (fun d => d.undistributed) = some 0) →
          f.add_reward amount now = none)
       ∧ (((f.try_distribute DENOM now).map (fun d => d.undistributed) ≠ some 0) →
          (f.add_reward amount now).map (fun r => r.1) =
              some (f.last_distribution.undistributed + amount)
          ∧ (f.add_reward amount now).map (fun r => r.2.status) =
              some FarmStatus.Running
          ∧ (f.add_reward amount now).map (fun r => r.2.amount_of_reward) =
              some (f.amount_of_reward + amount)
          ∧ (f.add_reward amount now).map
                (fun r => r.2.last_distribution.undistributed) =
              some (f.last_distribution.undistributed + amount)
          ∧ (f.add_reward amount now).map (fun r => r.2.terms) = some f.terms))
    ∧ ((f.status = FarmStatus.Ended ∨ f.status = FarmStatus.Cleared) →
       f.add_reward amount now = none) := by
  refine ⟨?_, ?_, ?_⟩
  · intro hs
    unfold Farm.add_reward
    rw [hs]
    dsimp only
    refine ⟨rfl, rfl, rfl, rfl, ?_⟩
    split <;> rfl
  · intro hs
    unfold Farm.add_reward
    rw [hs]
    dsimp only
    cases htry : f.try_distribute DENOM now with
    | none =>
      refine ⟨?_, ?_⟩
      · intro habs
        exact absurd habs (by simp)
      · intro _
        exact ⟨rfl, rfl, rfl, rfl, rfl⟩
    | some dis =>
      dsimp only
      split
      · rename_i h0
        refine ⟨?_, ?_⟩
        · intro _
          rfl
        · intro hne
          exact absurd (by simp [h0]) hne
      · rename_i h0
        refine ⟨?_, ?_⟩
        · intro habs
          simp only [Option.map_some', Option.some.injEq] at habs
          exact absurd habs h0
        · intro _
          exact ⟨rfl, rfl, rfl, rfl, rfl⟩
  · intro hs
    rcases hs with h | h <;> unfold Farm.add_reward <;> rw [h]

/-- Terms with a lazy start used by the C8 witness. -/
def exTermsZero : FarmTerms :=
  { seed_id := 1, reward_token := 2, start_at := 0,
    reward_per_session := 5000, session_interval := 50 }

/-- C8, witness: the first deposit into a freshly created lazy-start farm
is accepted and returns the new undistributed total. -/
theorem add_reward_acceptance_correct_witness :
    ((Farm.new (1, 0) exTermsZero).add_reward 50000 (to_nano 100)).map
        (fun r => r.1) = some 50000 := by
  have h := (add_reward_acceptance_correct
    (Farm.new (1, 0) exTermsZero) 50000 (to_nano 100)).1 rfl
  exact h.1.trans (by decide)

/-- The entitlement formula of spec section 4.2: stake times the growth of
the post-commit accumulator over the stored snapshot, divided by the scale
with truncation. -/
def claimAmt (farm : Farm) (farmer : Farmer) (total now : Nat) : Nat :=
  lookupD farmer.seeds farm.terms.seed_id 0 *
      ((farm.distribute total now).last_distribution.rps -
        farmer.get_rps farm.farm_id) / DENOM

/-- C6: whenever the settlement of a farmer against a farm completes, the
credited amount is exactly claimAmt (truncating wide division of stake times
the accumulator growth over the snapshot), it is subtracted from the
unclaimed pool of the post-commit farm and added both to amount_of_claimed
of the farm and to the claimed balance of the farmer for the reward token,
and the snapshot of the farmer is set to the post-commit rps even when the
credited amount is zero. -/
theorem claim_settlement_correct (farm : Farm) (farmer : Farmer)
    (total now : Nat)
    (h : (claim_user_reward_from_farm farm farmer total now).isSome) :
    farmer.get_rps farm.farm_id ≤
        (farm.distribute total now).last_distribution.rps
    ∧ claimAmt farm farmer total now ≤
        (farm.distribute total now).last_distribution.unclaimed
    ∧ (claim_user_reward_from_farm farm farmer total now).map
          (fun r => r.1.last_distribution.rps) =
        some (farm.distribute total now).last_distribution.rps
    ∧ (claim_user_reward_from_farm farm farmer total now).map
          (fun r => r.1.last_distribution.unclaimed) =
        some ((farm.distribute total now).last_distribution.unclaimed -
          claimAmt farm farmer total now)
    ∧ (claim_user_reward_from_farm farm farmer total now).map
          (fun r => r.1.amount_of_claimed) =
        some ((farm.distribute total now).amount_of_claimed +
          claimAmt farm farmer total now)
    ∧ (claim_user_reward_from_farm farm farmer total now).map
          (fun r => rewardBal r.2 farm.terms.reward_token) =
        some (rewardBal farmer farm.terms.reward_token +
          claimAmt farm farmer total now)
    ∧ (claim_user_reward_from_farm farm farmer total now).map
          (fun r => r.2.get_rps farm.farm_id) =
        some (farm.distribute total now).last_distribution.rps := by
  obtain ⟨res, hres⟩ := Option.isSome_iff_exists.mp h
  rw [hres]
  simp only [Option.map_some']
  unfold claim_user_reward_from_farm Farm.claim_user_reward at hres
  dsimp only at hres
  unfold claimAmt
  split at hres
  · rename_i hle
    split at hres
    · split at hres
      · split at hres
        · split at hres
          · rename_i hpos hok
            simp only [Option.map_some'] at hres
            injection hres with hres
            subst hres
            dsimp only
            rw [if_pos hpos]
            refine ⟨hle, hok, rfl, rfl, rfl, ?_, ?_⟩
            · rw [rewardBal_add_reward, rewardBal_set_rps]
            · rw [get_rps_add_reward, get_rps_set_rps_self]
          · exact absurd hres (by simp)
        · rename_i hz
          simp only [Option.map_some'] at hres
          injection hres with hres
          subst hres
          dsimp only
          have h0 : lookupD farmer.seeds farm.terms.seed_id 0 *
              ((farm.distribute total now).last_distribution.rps -
                farmer.get_rps farm.farm_id) / DENOM = 0 :=
            Nat.eq_zero_of_not_pos hz
          rw [h0, if_neg (Nat.lt_irrefl 0)]
          refine ⟨hle, Nat.zero_le _, rfl, ?_, ?_, ?_, ?_⟩
          · rw [Nat.sub_zero]
          · rw [Nat.add_zero]
          · rw [Nat.add_zero, rewardBal_set_rps]
          · rw [get_rps_set_rps_self]
      · exact absurd hres (by simp)
    · exact absurd hres (by simp)
  · exact absurd hres (by simp)

/-- Concrete Running farm used by the C6 witness: committed to round 2,
accumulator 500 DENOM, 5000 unclaimed. -/
def exFarmSettled : Farm :=
  { farm_id := (1, 0)
    terms := { seed_id := 1, reward_token := 2, start_at := 100,
               reward_per_session := 5000, session_interval := 50 }
    status := FarmStatus.Running
    last_distribution :=
      { undistributed := 40000, unclaimed := 5000, rps := 500 * DENOM, rr := 2 }
    amount_of_reward := 50000
    amount_of_claimed := 5000
    amount_of_beneficiary := 5000 }

/-- C6, witness: exFarmer (stake 10, snapshot 0, balance 10000) settles
against the concrete farm and is credited 10 times 500 DENOM over DENOM,
that is 5000, on top of the existing balance. -/
theorem claim_settlement_correct_witness :
    (claim_user_reward_from_farm exFarmSettled exFarmer 10 (to_nano 210)).map
        (fun r => rewardBal r.2 2) = some 15000 := by
  have h := (claim_settlement_correct exFarmSettled exFarmer 10 (to_nano 210)
    (by decide)).2.2.2.2.2.1
  exact h.trans (by decide)

/-- Reachability trace shared by the C7 and C9 findings, built only from
the exposed operations (the two spec-modelled entry points are farmer
registration and the reward deposit): create a lazy-start farm over seed 1
paying token 2 at 5000 per 50-second session; register farmers 10 and 11;
fund the farm with 50000 at t=100; farmer 10 stakes 10 at t=160; farmer 11,
holding no stake, claims the farm at t=210 and thereby stores a snapshot
equal to the then accumulator 500 DENOM; farmer 10 withdraws everything at
t=260 (the total stake drops to 0 and only the snapshots of farmer 10 are
removed); farmer 10 re-deposits at t=360, which first commits a
distribution at zero total stake and resets the accumulator to 0 while
farmer 11 still holds the snapshot 500 DENOM. -/
def trace7 : Option Contract :=
  let c0 : Contract := { seeds := [], farmers := [], farms := [], outdated_farms := [] }
  let c1 := internal_add_farm c0 1 exTermsZero
  let c2 := registerFarmer (registerFarmer c1 10) 11
  (deposit_reward c2 (1, 0) 50000 (to_nano 100)).bind fun c3 =>
  (internal_seed_deposit c3 1 10 10 (to_nano 160)).bind fun c4 =>
  (internal_claim_user_reward_by_farm_id c4 11 (1, 0) (to_nano 210)).bind fun c5 =>
  (internal_seed_withdraw c5 1 10 10 (to_nano 260)).bind fun c6 =>
  internal_seed_deposit c6 1 10 10 (to_nano 360)

/-- Stored snapshot of a farmer for a farm in a contract state. -/
def farmerSnap (c : Contract) (who : Nat) (fid : FarmId) : Option (Option Nat) :=
  (lookupA c.farmers who).map fun fr => lookupA fr.user_rps fid

/-- Stored accumulator of a farm in a contract state. -/
def farmRpsAt (c : Contract) (fid : FarmId) : Option Nat :=
  (lookupA c.farms fid).map fun fm => fm.last_distribution.rps

/-- C7: the computed unclaimed amount is not always well defined in
reachable states. The trace reaches a state where farmer 11 holds the
snapshot 500 DENOM while the farm accumulator was reset to 0, so the
256-bit subtraction rps - snapshot on the claim path underflows: the next
exposed claim of farmer 11 aborts (none) instead of settling. The source
treats such an accounting mismatch as fatal (the ERR500 assertion and
spec section 7d), so the claim is right about the intent and the code is
wrong on this trace. -/
theorem claim_underflow_reachable :
    (trace7.bind fun c =>
        internal_claim_user_reward_by_farm_id c 11 (1, 0) (to_nano 365)) = none
    ∧ (trace7.map fun c => farmerSnap c 11 (1, 0)) =
        some (some (some (500 * DENOM)))
    ∧ (trace7.map fun c => farmRpsAt c (1, 0)) = some (some 0) := by
  refine ⟨by decide, by decide, by decide⟩

/-- C9: the invariant snapshot_rps <= Farm.rps fails in a reachable state.
After the trace, farmer 11 still holds the snapshot 500 DENOM for farm
(1, 0) while the stored accumulator of that farm is 0: a zero-stake claim
by farmer 11 stored the snapshot, and a later distribution committed with
zero total stake reset the accumulator below it. -/
theorem snapshot_exceeds_rps_reachable :
    (trace7.map fun c => farmerSnap c 11 (1, 0)) =
        some (some (some (500 * DENOM)))
    ∧ (trace7.map fun c => farmRpsAt c (1, 0)) = some (some 0)
    ∧ 0 < 500 * DENOM := by
  refine ⟨by decide, by decide, by decide⟩

theorem lookupD_insertA_self {α β : Type} [DecidableEq α]
    (l : List (α × β)) (k : α) (v d : β) : lookupD (insertA l k v) k d = v := by
  unfold lookupD
  rw [lookupA_insertA_self]
  rfl

theorem lookupD_removeA_self {α β : Type} [DecidableEq α]
    (l : List (α × β)) (k : α) (d : β) : lookupD (removeA l k) k d = d := by
  unfold lookupD
  rw [lookupA_removeA_self]
  rfl

/-- The farm component a settlement leaves behind, as a function of the
inputs the spec says it must depend on: the pre-change snapshot, the
pre-change stake map and the pre-change seed total. -/
def settleFarmOnly (fm : Farm) (urps : Nat) (seeds : List (Nat × Nat))
    (total now : Nat) : Option Farm :=
  (fm.claim_user_reward urps (lookupD seeds fm.terms.seed_id 0) total now).map
    (fun r => r.2.2)

/-- The snapshot a settlement writes, as a function of the same pre-change
inputs. -/
def settleSnap (fm : Farm) (urps : Nat) (seeds : List (Nat × Nat))
    (total now : Nat) : Option Nat :=
  (fm.claim_user_reward urps (lookupD seeds fm.terms.seed_id 0) total now).map
    (fun r => r.1)

/-- Decomposition of one completed settlement: the stake map of the farmer
is untouched, the farm becomes settleFarmOnly, the snapshot for the farm
becomes settleSnap, and every other snapshot entry is untouched. -/
theorem claim_from_farm_inv (fm : Farm) (fr : Farmer) (total now : Nat)
    (res : Farm × Farmer)
    (h : claim_user_reward_from_farm fm fr total now = some res) :
    res.2.seeds = fr.seeds
    ∧ settleFarmOnly fm (fr.get_rps fm.farm_id) fr.seeds total now = some res.1
    ∧ lookupA res.2.user_rps fm.farm_id =
        settleSnap fm (fr.get_rps fm.farm_id) fr.seeds total now
    ∧ ∀ fid', fid' ≠ fm.farm_id →
        lookupA res.2.user_rps fid' = lookupA fr.user_rps fid' := by
  unfold claim_user_reward_from_farm at h
  dsimp only at h
  cases hx : fm.claim_user_reward (fr.get_rps fm.farm_id)
      (lookupD fr.seeds fm.terms.seed_id 0) total now with
  | none =>
    rw [hx] at h
    exact absurd h (by simp)
  | some r =>
    rw [hx] at h
    simp only [Option.map_some'] at h
    injection h with h
    subst h
    dsimp only
    refine ⟨?_, ?_, ?_, ?_⟩
    · split
      · rw [seeds_add_reward]
        rfl
      · rfl
    · unfold settleFarmOnly
      rw [hx]
      rfl
    · unfold settleSnap
      rw [hx]
      split
      · rw [user_rps_add_reward]
        unfold Farmer.set_rps
        dsimp only
        rw [lookupA_insertA_self]
        rfl
      · unfold Farmer.set_rps
        dsimp only
        rw [lookupA_insertA_self]
        rfl
    · intro fid' hne
      split
      · rw [user_rps_add_reward]
        unfold Farmer.set_rps
        dsimp only
        rw [lookupA_insertA_ne _ _ _ _ (fun he => hne he.symm)]
      · unfold Farmer.set_rps
        dsimp only
        rw [lookupA_insertA_ne _ _ _ _ (fun he => hne he.symm)]

/-- Decomposition of a completed stake debit: the amount fits, the returned
remainder is the stake minus the amount, the stored stake becomes that
remainder, and snapshots and reward balances are untouched. -/
theorem sub_seed_spec (fr : Farmer) (s a : Nat) (r : Nat × Farmer)
    (h : fr.sub_seed s a = some r) :
    a ≤ lookupD fr.seeds s 0
    ∧ r.1 = lookupD fr.seeds s 0 - a
    ∧ lookupD r.2.seeds s 0 = lookupD fr.seeds s 0 - a
    ∧ r.2.user_rps = fr.user_rps
    ∧ r.2.rewards = fr.rewards := by
  unfold Farmer.sub_seed at h
  cases hl : lookupA fr.seeds s with
  | none =>
    rw [hl] at h
    exact absurd h (by simp)
  | some prev =>
    rw [hl] at h
    dsimp only at h
    split at h
    · exact absurd h (by simp)
    · rename_i hge
      unfold lookupD
      rw [hl]
      simp only [Option.getD_some]
      split at h
      · injection h with h
        subst h
        dsimp only
        rw [lookupA_insertA_self]
        simp only [Option.getD_some]
        exact ⟨by omega, by simp, by simp, by simp, by simp⟩
      · rename_i hz
        injection h with h
        subst h
        dsimp only
        rw [lookupA_removeA_self]
        simp only [Option.getD_none]
        exact ⟨by omega, by simp, by omega, by simp, by simp⟩

/-- A completed reward debit only changes the reward balances. -/
theorem sub_reward_fields (fr : Farmer) (t a : Nat) (r : Nat × Farmer)
    (h : fr.sub_reward t a = some r) :
    r.2.seeds = fr.seeds ∧ r.2.user_rps = fr.user_rps := by
  unfold Farmer.sub_reward at h
  cases hl : lookupA fr.rewards t with
  | none =>
    rw [hl] at h
    exact absurd h (by simp)
  | some v =>
    rw [hl] at h
    dsimp only at h
    split at h
    · exact absurd h (by simp)
    · split at h <;> (injection h with h; subst h; exact ⟨rfl, rfl⟩)

/-- removeRpsList does not touch the stake map. -/
theorem removeRpsList_seeds (ids : List FarmId) :
    ∀ fr : Farmer, (removeRpsList fr ids).seeds = fr.seeds := by
  induction ids with
  | nil => intro fr; rfl
  | cons fid rest ih => intro fr; exact ih (fr.remove_rps fid)

/-- A snapshot entry that is absent stays absent through removeRpsList. -/
theorem removeRpsList_keeps_none (ids : List FarmId) :
    ∀ (fr : Farmer) (fid : FarmId), lookupA fr.user_rps fid = none →
      lookupA (removeRpsList fr ids).user_rps fid = none := by
  induction ids with
  | nil => intro fr fid h; exact h
  | cons fid0 rest ih =>
    intro fr fid h
    exact ih (fr.remove_rps fid0) fid (lookupA_removeA_of_none _ _ _ h)

/-- Every snapshot named in the list is gone after removeRpsList. -/
theorem removeRpsList_removes (ids : List FarmId) :
    ∀ (fr : Farmer) (fid : FarmId), fid ∈ ids →
      lookupA (removeRpsList fr ids).user_rps fid = none := by
  induction ids with
  | nil => intro fr fid h; exact absurd h (List.not_mem_nil fid)
  | cons fid0 rest ih =>
    intro fr fid h
    rcases List.mem_cons.mp h with he | hm
    · subst he
      exact removeRpsList_keeps_none rest (fr.remove_rps fid) fid
        (lookupA_removeA_self _ _)
    · exact ih (fr.remove_rps fid0) fid hm

/-- The optimistic reward withdraw keeps farms and seeds, and keeps the
stake map and snapshots of every farmer. -/
theorem execute_withdraw_preserves (c : Contract) (token sender : Nat)
    (a : Option Nat) (c' : Contract)
    (h : internal_execute_withdraw_reward c token sender a = some c') :
    c'.farms = c.farms ∧ c'.seeds = c.seeds
    ∧ ∀ (s : Nat) (fr : Farmer), lookupA c.farmers s = some fr →
        ∃ fr', lookupA c'.farmers s = some fr' ∧
          fr'.seeds = fr.seeds ∧ fr'.user_rps = fr.user_rps := by
  unfold internal_execute_withdraw_reward at h
  cases hl : lookupA c.farmers sender with
  | none =>
    rw [hl] at h
    exact absurd h (by simp)
  | some fr0 =>
    rw [hl] at h
    dsimp only at h
    cases hs : fr0.sub_reward token (a.getD 0) with
    | none =>
      rw [hs] at h
      exact absurd h (by simp)
    | some r =>
      rw [hs] at h
      dsimp only at h
      injection h with h
      subst h
      obtain ⟨e1, e2⟩ := sub_reward_fields fr0 token (a.getD 0) r hs
      refine ⟨rfl, rfl, ?_⟩
      intro s fr hfr
      by_cases he : s = sender
      · subst he
        refine ⟨r.2, ?_, ?_, ?_⟩
        · dsimp only
          rw [lookupA_insertA_self]
        · rw [e1]
          rw [hl] at hfr
          injection hfr with hfr
          rw [hfr]
        · rw [e2]
          rw [hl] at hfr
          injection hfr with hfr
          rw [hfr]
      · refine ⟨fr, ?_, rfl, rfl⟩
        dsimp only
        rw [lookupA_insertA_ne _ _ _ _ (fun hx => he hx.symm)]
        exact hfr

/-- The auto-withdraw loop keeps farms and seeds, and keeps the stake map
and snapshots of every farmer. -/
theorem autoWithdrawLoop_preserves (ids : List FarmId) :
    ∀ (c : Contract) (frS : Farmer) (sender : Nat) (seen : List Nat)
      (c' : Contract), autoWithdrawLoop c frS sender seen ids = some c' →
      c'.farms = c.farms ∧ c'.seeds = c.seeds
      ∧ ∀ (s : Nat) (fr : Farmer), lookupA c.farmers s = some fr →
          ∃ fr', lookupA c'.farmers s = some fr' ∧
            fr'.seeds = fr.seeds ∧ fr'.user_rps = fr.user_rps := by
  induction ids with
  | nil =>
    intro c frS sender seen c' h
    injection h with h
    subst h
    exact ⟨rfl, rfl, fun s fr hfr => ⟨fr, hfr, rfl, rfl⟩⟩
  | cons fid rest ih =>
    intro c frS sender seen c' h
    unfold autoWithdrawLoop at h
    cases hl : lookupA c.farms fid with
    | none =>
      rw [hl] at h
      exact absurd h (by simp)
    | some farm =>
      rw [hl] at h
      dsimp only at h
      split at h
      · exact ih c frS sender seen c' h
      · split at h
        · cases hw : internal_execute_withdraw_reward c
              farm.terms.reward_token sender none with
          | none =>
            rw [hw] at h
            exact absurd h (by simp)
          | some c2 =>
            rw [hw] at h
            dsimp only at h
            obtain ⟨w1, w2, w3⟩ := execute_withdraw_preserves c
              farm.terms.reward_token sender none c2 hw
            obtain ⟨i1, i2, i3⟩ := ih c2 frS sender
              (farm.terms.reward_token :: seen) c' h
            refine ⟨i1.trans w1, i2.trans w2, ?_⟩
            intro s fr hfr
            obtain ⟨fr2, hfr2, e1, e2⟩ := w3 s fr hfr
            obtain ⟨fr3, hfr3, e3, e4⟩ := i3 s fr2 hfr2
            exact ⟨fr3, hfr3, e3.trans e1, e4.trans e2⟩
        · exact ih c frS sender (farm.terms.reward_token :: seen) c' h

/-- Equal snapshot tables give equal snapshot reads. -/
theorem get_rps_congr (fr1 fr2 : Farmer) (fid : FarmId)
    (h : lookupA fr1.user_rps fid = lookupA fr2.user_rps fid) :
    fr1.get_rps fid = fr2.get_rps fid := by
  unfold Farmer.get_rps lookupD
  rw [h]

/-- The settlement loop over the farms of a seed: the stake map of the
farmer is untouched, entries outside the list are untouched, and every farm
in the list, together with the snapshot written for it, is the settlement
of the original farm against the original farmer data (pre-change stake,
pre-change snapshot, pre-change totals), each settled exactly once. -/
theorem claimFarmsLoop_spec (total now : Nat) (ids : List FarmId) :
    ∀ (farms : List (FarmId × Farm)) (farmer : Farmer)
      (res : List (FarmId × Farm) × Farmer),
      claimFarmsLoop total now ids farms farmer = some res →
      ids.Nodup →
      (∀ fid, fid ∈ ids → ∀ fm, lookupA farms fid = some fm →
        fm.farm_id = fid) →
      res.2.seeds = farmer.seeds
      ∧ (∀ fid, fid ∉ ids →
          lookupA res.1 fid = lookupA farms fid
          ∧ lookupA res.2.user_rps fid = lookupA farmer.user_rps fid)
      ∧ (∀ fid, fid ∈ ids →
          lookupA res.1 fid =
            (lookupA farms fid).bind (fun fm =>
              settleFarmOnly fm (farmer.get_rps fid) farmer.seeds total now)
          ∧ lookupA res.2.user_rps fid =
            (lookupA farms fid).bind (fun fm =>
              settleSnap fm (farmer.get_rps fid) farmer.seeds total now)) := by
  induction ids with
  | nil =>
    intro farms farmer res h _ _
    unfold claimFarmsLoop at h
    injection h with h
    subst h
    exact ⟨rfl, fun fid _ => ⟨rfl, rfl⟩,
      fun fid hmem => absurd hmem (List.not_mem_nil fid)⟩
  | cons fid0 rest ih =>
    intro farms farmer res h hnd hwf
    obtain ⟨hnotmem, hndrest⟩ := List.nodup_cons.mp hnd
    unfold claimFarmsLoop at h
    cases hl : lookupA farms fid0 with
    | none =>
      rw [hl] at h
      exact absurd h (by simp)
    | some fm0 =>
      rw [hl] at h
      dsimp only at h
      cases hc : claim_user_reward_from_farm fm0 farmer total now with
      | none =>
        rw [hc] at h
        exact absurd h (by simp)
      | some r0 =>
        rw [hc] at h
        obtain ⟨fm0', fr1⟩ := r0
        dsimp only at h
        have hfm0 : fm0.farm_id = fid0 :=
          hwf fid0 (List.mem_cons_self fid0 rest) fm0 hl
        obtain ⟨cseeds, cfarm, csnap, cother⟩ :=
          claim_from_farm_inv fm0 farmer total now (fm0', fr1) hc
        dsimp only at cseeds cfarm csnap cother
        have hwf' : ∀ fid, fid ∈ rest → ∀ fm,
            lookupA (insertA farms fid0 fm0') fid = some fm →
            fm.farm_id = fid := by
          intro fid hm fm hlk
          have hne : fid0 ≠ fid := fun he => hnotmem (he ▸ hm)
          rw [lookupA_insertA_ne _ _ _ _ hne] at hlk
          exact hwf fid (List.mem_cons_of_mem _ hm) fm hlk
        obtain ⟨iseeds, iout, iin⟩ :=
          ih (insertA farms fid0 fm0') fr1 res h hndrest hwf'
        refine ⟨iseeds.trans cseeds, ?_, ?_⟩
        · intro fid hnm
          have hne : fid ≠ fid0 :=
            fun he => hnm (by rw [he]; exact List.mem_cons_self fid0 rest)
          have hnr : fid ∉ rest := fun hmm => hnm (List.mem_cons_of_mem _ hmm)
          obtain ⟨o1, o2⟩ := iout fid hnr
          constructor
          · rw [o1, lookupA_insertA_ne _ _ _ _ (fun he => hne he.symm)]
          · rw [o2, cother fid (fun he => hne (he.trans hfm0))]
        · intro fid hm
          rcases List.mem_cons.mp hm with he | hm'
          · subst he
            obtain ⟨o1, o2⟩ := iout fid hnotmem
            constructor
            · rw [o1, lookupA_insertA_self, hl]
              rw [hfm0] at cfarm
              exact cfarm.symm
            · rw [o2, hl]
              rw [hfm0] at csnap
              exact csnap
          · have hne0 : fid ≠ fid0 := fun he => hnotmem (he ▸ hm')
            obtain ⟨i1, i2⟩ := iin fid hm'
            have hl' : lookupA (insertA farms fid0 fm0') fid =
                lookupA farms fid :=
              lookupA_insertA_ne _ _ _ _ (fun he => hne0 he.symm)
            have hrps : fr1.get_rps fid = farmer.get_rps fid :=
              get_rps_congr _ _ _
                (cother fid (fun he => hne0 (he.trans hfm0)))
            constructor
            · rw [i1, hl']
              simp only [cseeds, hrps]
            · rw [i2, hl']
              simp only [cseeds, hrps]

/-- Key consistency of the farms map (the ownership scheme of spec
section 3): every farm stored under an id in the list carries that id. -/
def farmsWellKeyed (farms : List (FarmId × Farm)) (ids : List FarmId) : Prop :=
  ∀ fid ∈ ids, (lookupA farms fid).map (fun fm => fm.farm_id) =
    (lookupA farms fid).map (fun _ => fid)

instance (farms : List (FarmId × Farm)) (ids : List FarmId) :
    Decidable (farmsWellKeyed farms ids) := by
  unfold farmsWellKeyed
  infer_instance

/-- Dissection of a completed claim-by-seed: the seed record and the stake
map are untouched, and every farm of the seed together with the snapshot
written for it is the settlement against the pre-change farmer data. -/
theorem claim_by_seed_dissect (c : Contract) (sender seed now : Nat)
    (fs : FarmSeed) (farmer : Farmer) (c1 : Contract)
    (hfs : lookupA c.seeds seed = some fs)
    (hfr : lookupA c.farmers sender = some farmer)
    (hnd : fs.farms.Nodup)
    (hwf : farmsWellKeyed c.farms fs.farms)
    (h : internal_claim_user_reward_by_seed_id c sender seed now = some c1) :
    ∃ farmer1,
      lookupA c1.seeds seed = some fs
      ∧ lookupA c1.farmers sender = some farmer1
      ∧ farmer1.seeds = farmer.seeds
      ∧ ∀ fid, fid ∈ fs.farms →
          (lookupA c1.farms fid =
            (lookupA c.farms fid).bind (fun fm =>
              settleFarmOnly fm (farmer.get_rps fid) farmer.seeds fs.amount now)
          ∧ lookupA farmer1.user_rps fid =
            (lookupA c.farms fid).bind (fun fm =>
              settleSnap fm (farmer.get_rps fid) farmer.seeds fs.amount now)) := by
  unfold internal_claim_user_reward_by_seed_id at h
  rw [hfr] at h
  dsimp only at h
  rw [hfs] at h
  dsimp only at h
  cases hloop : claimFarmsLoop fs.amount now fs.farms c.farms farmer with
  | none =>
    rw [hloop] at h
    exact absurd h (by simp)
  | some lr =>
    rw [hloop] at h
    obtain ⟨farms', farmer1⟩ := lr
    dsimp only at h
    injection h with h
    subst h
    have hwf' : ∀ fid, fid ∈ fs.farms → ∀ fm,
        lookupA c.farms fid = some fm → fm.farm_id = fid := by
      intro fid hm fm hlk
      have hx := hwf fid hm
      rw [hlk] at hx
      simp only [Option.map_some', Option.some.injEq] at hx
      exact hx
    obtain ⟨lseeds, _, lin⟩ := claimFarmsLoop_spec fs.amount now fs.farms
      c.farms farmer (farms', farmer1) hloop hnd hwf'
    dsimp only at lseeds lin
    refine ⟨farmer1, ?_, ?_, lseeds, lin⟩
    · dsimp only
      rw [lookupA_insertA_self]
    · dsimp only
      rw [lookupA_insertA_self]

/-- add_seed raises the stored stake by the amount (a zero amount is the
no-op branch). -/
theorem add_seed_lookupD (fr : Farmer) (s a : Nat) :
    lookupD (fr.add_seed s a).seeds s 0 = lookupD fr.seeds s 0 + a := by
  unfold Farmer.add_seed
  split
  · dsimp only
    rw [lookupD_insertA_self]
    exact Nat.add_comm a _
  · omega

/-- add_seed does not touch the snapshots. -/
theorem add_seed_user_rps (fr : Farmer) (s a : Nat) :
    (fr.add_seed s a).user_rps = fr.user_rps := by
  unfold Farmer.add_seed
  split <;> rfl

/-- C5, amended: every stake change settles every farm of the seed for the
farmer first, against the pre-change stake map, snapshot and seed total,
and only afterwards applies the delta to the stored stake of the farmer and
to the seed total; on a withdrawal that leaves zero stake, every snapshot
entry for the farms of the seed is removed, and otherwise (and always on a
deposit, where a zero-amount deposit leaves a fresh snapshot with zero
stake, see the counterexample) the snapshot entries for those farms are the
ones the settlement wrote. -/
theorem stake_change_settles_before_mutation :
    (∀ (c : Contract) (seed sender amount now : Nat) (fs : FarmSeed)
       (farmer : Farmer) (c' : Contract),
       lookupA c.seeds seed = some fs →
       lookupA c.farmers sender = some farmer →
       fs.farms.Nodup →
       farmsWellKeyed c.farms fs.farms →
       internal_seed_withdraw c seed sender amount now = some c' →
       (lookupA c'.seeds seed).map (fun s => s.amount) =
           some (fs.amount - amount)
       ∧ (lookupA c'.farmers sender).map (fun fr => lookupD fr.seeds seed 0) =
           some (lookupD farmer.seeds seed 0 - amount)
       ∧ (∀ fid, fid ∈ fs.farms →
           lookupA c'.farms fid =
             (lookupA c.farms fid).bind (fun fm =>
               settleFarmOnly fm (farmer.get_rps fid) farmer.seeds fs.amount now))
       ∧ (lookupD farmer.seeds seed 0 - amount = 0 →
           ∀ fid, fid ∈ fs.farms →
             (lookupA c'.farmers sender).map
                 (fun fr => lookupA fr.user_rps fid) = some none)
       ∧ (lookupD farmer.seeds seed 0 - amount ≠ 0 →
           ∀ fid, fid ∈ fs.farms →
             (lookupA c'.farmers sender).map
                 (fun fr => lookupA fr.user_rps fid) =
               some ((lookupA c.farms fid).bind (fun fm =>
                 settleSnap fm (farmer.get_rps fid) farmer.seeds fs.amount now))))
    ∧ (∀ (c : Contract) (seed sender amount now : Nat) (fs : FarmSeed)
       (farmer : Farmer) (c' : Contract),
       lookupA c.seeds seed = some fs →
       lookupA c.farmers sender = some farmer →
       fs.farms.Nodup →
       farmsWellKeyed c.farms fs.farms →
       internal_seed_deposit c seed sender amount now = some c' →
       (lookupA c'.seeds seed).map (fun s => s.amount) =
           some (fs.amount + amount)
       ∧ (lookupA c'.farmers sender).map (fun fr => lookupD fr.seeds seed 0) =
           some (lookupD farmer.seeds seed 0 + amount)
       ∧ (∀ fid, fid ∈ fs.farms →
           lookupA c'.farms fid =
             (lookupA c.farms fid).bind (fun fm =>
               settleFarmOnly fm (farmer.get_rps fid) farmer.seeds fs.amount now))
       ∧ (∀ fid, fid ∈ fs.farms →
           (lookupA c'.farmers sender).map
               (fun fr => lookupA fr.user_rps fid) =
             some ((lookupA c.farms fid).bind (fun fm =>
               settleSnap fm (farmer.get_rps fid) farmer.seeds fs.amount now)))) := by
  constructor
  · intro c seed sender amount now fs farmer c' hfs hfr hnd hwf h
    unfold internal_seed_withdraw at h
    cases hc1 : internal_claim_user_reward_by_seed_id c sender seed now with
    | none =>
      rw [hc1] at h
      exact absurd h (by simp)
    | some c1 =>
      rw [hc1] at h
      dsimp only at h
      obtain ⟨farmer1, d1, d2, d3, d4⟩ :=
        claim_by_seed_dissect c sender seed now fs farmer c1 hfs hfr hnd hwf hc1
      rw [d1, d2] at h
      dsimp only at h
      cases hsub : farmer1.sub_seed seed amount with
      | none =>
        rw [hsub] at h
        exact absurd h (by simp)
      | some r =>
        rw [hsub] at h
        dsimp only at h
        cases hsa : fs.sub_amount amount with
        | none =>
          rw [hsa] at h
          exact absurd h (by simp)
        | some fs1 =>
          rw [hsa] at h
          dsimp only at h
          obtain ⟨s1, s2, s3, s4, s5⟩ := sub_seed_spec farmer1 seed amount r hsub
          have hfs1 : fs1.amount = fs.amount - amount ∧ fs1.farms = fs.farms := by
            unfold FarmSeed.sub_amount at hsa
            split at hsa
            · exact absurd hsa (by simp)
            · injection hsa with hsa
              subst hsa
              exact ⟨rfl, rfl⟩
          obtain ⟨a1, a2⟩ := hfs1
          obtain ⟨w1, w2, w3⟩ :=
            autoWithdrawLoop_preserves fs1.farms _ _ sender [] c' h
          obtain ⟨fr', hfr', e1, e2⟩ := w3 sender
            (if r.1 = 0 then removeRpsList r.2 fs1.farms else r.2)
            (by dsimp only; rw [lookupA_insertA_self])
          have hseeds2 :
              (if r.1 = 0 then removeRpsList r.2 fs1.farms else r.2).seeds =
                r.2.seeds := by
            split
            · exact removeRpsList_seeds _ _
            · rfl
          refine ⟨?_, ?_, ?_, ?_, ?_⟩
          · rw [w2]
            dsimp only
            rw [lookupA_insertA_self]
            simp only [Option.map_some', Option.some.injEq]
            exact a1
          · rw [hfr']
            simp only [Option.map_some', Option.some.injEq]
            rw [e1, hseeds2, s3, d3]
          · intro fid hm
            rw [w1]
            dsimp only
            exact (d4 fid hm).1
          · intro hz fid hm
            have hr0 : r.1 = 0 := by
              rw [s2, d3]
              exact hz
            rw [hfr']
            simp only [Option.map_some', Option.some.injEq]
            rw [e2, if_pos hr0]
            exact removeRpsList_removes fs1.farms r.2 fid (by rw [a2]; exact hm)
          · intro hnz fid hm
            have hr0 : r.1 ≠ 0 := by
              rw [s2, d3]
              exact hnz
            rw [hfr']
            simp only [Option.map_some', Option.some.injEq]
            rw [e2, if_neg hr0, s4]
            exact (d4 fid hm).2
  · intro c seed sender amount now fs farmer c' hfs hfr hnd hwf h
    unfold internal_seed_deposit at h
    cases hc1 : internal_claim_user_reward_by_seed_id c sender seed now with
    | none =>
      rw [hc1] at h
      exact absurd h (by simp)
    | some c1 =>
      rw [hc1] at h
      dsimp only at h
      obtain ⟨farmer1, d1, d2, d3, d4⟩ :=
        claim_by_seed_dissect c sender seed now fs farmer c1 hfs hfr hnd hwf hc1
      rw [d1, d2] at h
      dsimp only at h
      obtain ⟨w1, w2, w3⟩ :=
        autoWithdrawLoop_preserves (fs.add_amount amount).farms _ _ sender [] c' h
      obtain ⟨fr', hfr', e1, e2⟩ := w3 sender (farmer1.add_seed seed amount)
        (by dsimp only; rw [lookupA_insertA_self])
      refine ⟨?_, ?_, ?_, ?_⟩
      · rw [w2]
        dsimp only
        rw [lookupA_insertA_self]
        rfl
      · rw [hfr']
        simp only [Option.map_some', Option.some.injEq]
        rw [e1, add_seed_lookupD, d3]
      · intro fid hm
        rw [w1]
        dsimp only
        exact (d4 fid hm).1
      · intro fid hm
        rw [hfr']
        simp only [Option.map_some', Option.some.injEq]
        rw [e2, add_seed_user_rps]
        exact (d4 fid hm).2

/-- Contract state for the C5 counterexample: one Created farm under
seed 1, a registered farmer 11 with no stake and no snapshots. -/
def cexContract : Contract :=
  { seeds := [(1, { seed_id := 1, amount := 0, farms := [(1, 0)], next_index := 1 })]
    farmers := [(11, { farmer_id := 11, rewards := [], seeds := [], user_rps := [] })]
    farms := [((1, 0), Farm.new (1, 0) exTermsZero)]
    outdated_farms := [] }

/-- C5, counterexample: a deposit of amount 0 by a farmer with no stake
completes, leaves the farmer with stake 0 for the seed, and yet the
settlement step has just created a snapshot entry for the farm of the seed,
so the clause of the claim that a zero resulting stake means all snapshot
entries are removed fails on internal_seed_deposit. -/
theorem zero_amount_deposit_leaves_snapshot :
    ((internal_seed_deposit cexContract 1 11 0 0).map fun c =>
        (lookupA c.farmers 11).map fun fr =>
          (lookupD fr.seeds 1 0, (lookupA fr.user_rps (1, 0)).isSome)) =
      some (some (0, true)) := by decide

/-- Seed aggregate for the C5 witness. -/
def cwSeed : FarmSeed :=
  { seed_id := 1, amount := 10, farms := [(1, 0)], next_index := 1 }

/-- Contract state for the C5 witness: one Created farm under seed 1 and
exFarmer holding the whole stake of 10. -/
def cwContract : Contract :=
  { seeds := [(1, cwSeed)]
    farmers := [(10, exFarmer)]
    farms := [((1, 0), Farm.new (1, 0) exTermsZero)]
    outdated_farms := [] }

/-- C5, witness: withdrawing the whole stake at the concrete state removes
the snapshot of the farmer for the farm of the seed. -/
theorem stake_change_settles_before_mutation_witness :
    ((internal_seed_withdraw cwContract 1 10 10 0).map fun c =>
        (lookupA c.farmers 10).map fun fr => lookupA fr.user_rps (1, 0)) =
      some (some none) := by
  cases hW : internal_seed_withdraw cwContract 1 10 10 0 with
  | none => exact absurd hW (by decide)
  | some c' =>
    have h := stake_change_settles_before_mutation.1 cwContract 1 10 10 0
      cwSeed exFarmer c' (by decide) (by decide) (by decide) (by decide) hW
    have h4 := h.2.2.2.1 (by decide) (1, 0) (by decide)
    simp only [Option.map_some']
    exact congrArg some h4
